/-
Verification of the FRAGMENT-MNP notebook engine (fmnp-notebooks).

The repository's sensitivity-analysis notebook implements a small
fragmentation engine by hand: a log-spaced particle-size distribution
`d = np.logspace(K_range[1], K_range[0], K)` (index 0 = coarsest class),
a power-law fragmentation rate array
`k_frag = k_prop * d ** (2*theta1)` with
`k_prop = _k_frag / d_median ** (2*theta1)`,
an optional zeroing of the finest class's rate when fragmentation from the
smallest size class is not allowed, a fragment size distribution matrix
`fsd` (even split over strictly finer classes, obtained with np.triu), and
the ODE right-hand side
`dndt[k] = -k_frag[k]*n[k] + np.sum(fsd[:,k] * k_frag * n)`.

All float quantities are embedded as real numbers; `x ** y` is Real.rpow.
-/
import Mathlib

namespace FMNP

/-- Error taxonomy of the specification: configuration errors are raised
eagerly at model construction, integration errors after a failed run. -/
inductive FMNPError where
  | ConfigurationError
  | IntegrationError
deriving DecidableEq

/-- Modelled from the spec: the app notebook constructs the model via the
external FragmentMNP library (`FragmentMNP(minimal_config, minimal_data)`),
whose validation code is not part of this repository; only its caller is.
Per spec sections 4.1 and 7, construction fails with `ConfigurationError`
when `K < 1` or when the minimum diameter exponent is greater than or equal
to the maximum diameter exponent, and otherwise returns the configuration
unchanged (never silently corrected). -/
def fragmentmnp_construct (K emin emax : ℤ) : Except FMNPError (ℤ × ℤ × ℤ) :=
  if K < 1 ∨ emax ≤ emin then Except.error FMNPError.ConfigurationError
  else Except.ok (K, emin, emax)

/-- Modelled from the spec: a run first constructs (validates) the model and
only then hands the validated configuration to the integrator; a
construction error is surfaced before any integration is attempted. -/
def fragmentmnp_run (K emin emax : ℤ)
    (integrate : ℤ × ℤ × ℤ → Except FMNPError (List ℝ)) :
    Except FMNPError (List ℝ) :=
  match fragmentmnp_construct K emin emax with
  | Except.error e => Except.error e
  | Except.ok m => integrate m

noncomputable section

/-- The particle size distribution `d = np.logspace(K_range[1], K_range[0], K)`:
`K` diameters `10 ^ e_k` whose exponents are linearly spaced from `emax`
down to `emin` (index 0 = coarsest class).  numpy's linspace places
`e_k = emax + k * (emin - emax) / (K - 1)` and returns `[emax]` for `K = 1`
(our formula also yields `emax` at `K = 1` since `0 * x / 0 = 0` in ℝ). -/
def d (K : ℕ) (emin emax : ℝ) (k : ℕ) : ℝ :=
  (10 : ℝ) ^ (emax + (k : ℝ) * (emin - emax) / ((K : ℝ) - 1))

/-- The size distribution as a list, to state that exactly `K` diameters
are returned. -/
def dList (K : ℕ) (emin emax : ℝ) : List ℝ :=
  List.ofFn (fun j : Fin K => d K emin emax j)

/-- `d_median = np.median(d)`.  np.median sorts the array and takes the
middle entry (odd length) or the mean of the two middle entries (even
length).  The notebook's `d` is monotone in the index, so the sorted
middle entries are `d[(K-1)/2]` (odd `K`) and `d[K/2 - 1]`, `d[K/2]`
(even `K`) — this closed form equals np.median for every monotone
sequence, in either direction of monotonicity. -/
def d_median (K : ℕ) (emin emax : ℝ) : ℝ :=
  if K % 2 = 1 then d K emin emax ((K - 1) / 2)
  else (d K emin emax (K / 2 - 1) + d K emin emax (K / 2)) / 2

/-- `k_prop = _k_frag / (d_median ** (2 * theta1))`. -/
def k_prop (K : ℕ) (emin emax kbar theta1 : ℝ) : ℝ :=
  kbar / d_median K emin emax ^ (2 * theta1)

/-- `k_frag = k_prop * d ** (2 * theta1)` (per size class). -/
def k_frag (K : ℕ) (emin emax kbar theta1 : ℝ) (k : ℕ) : ℝ :=
  k_prop K emin emax kbar theta1 * d K emin emax k ^ (2 * theta1)

/-- The fragmentation-rate array after the boundary step
`if not loss: k_frag[K-1] = 0.0`: when fragmentation from the smallest
size class is not allowed, its rate is overwritten with 0, all other
entries are untouched. -/
def k_frag_loss (K : ℕ) (emin emax kbar theta1 : ℝ) (loss : Bool) (k : ℕ) : ℝ :=
  if loss = false ∧ k = K - 1 then 0 else k_frag K emin emax kbar theta1 k

/-- The fragment size distribution matrix:
`fsd[k,:] = 1 / (K - k - 1) if (K - k) != 1 else 0` followed by
`fsd = np.triu(fsd, k=1)`, which keeps only the entries strictly above the
diagonal (columns strictly finer than the row's class). -/
def fsd (K i j : ℕ) : ℝ :=
  if i < j then (if K - i = 1 then 0 else 1 / ((K : ℝ) - (i : ℝ) - 1)) else 0

/-- The ODE right-hand side `f(t, n)` of the sensitivity notebook:
`dndt[k] = -k_frag[k] * n[k] + np.sum(fsd[:,k] * k_frag * n)`.
`t` is accepted only for solver-interface compatibility and unused. -/
def f (K : ℕ) (kf : ℕ → ℝ) (t : ℝ) (n : ℕ → ℝ) (k : ℕ) : ℝ :=
  -kf k * n k + ∑ i ∈ Finset.range K, fsd K i k * kf i * n i

/-- Follows the spec's words (§4.4), for refinement comparison with `f`:
`dc_k/dt = -k_frag[k]*c[k] + Σ_i f[i][k]*k_frag[i]*c[i] - k_diss[k]*c[k]`,
including the dissolution sink term. -/
def f_spec (K : ℕ) (kf kdiss : ℕ → ℝ) (t : ℝ) (n : ℕ → ℝ) (k : ℕ) : ℝ :=
  -kf k * n k + (∑ i ∈ Finset.range K, fsd K i k * kf i * n i) - kdiss k * n k

/-! ### Helper lemmas about the fragment size distribution matrix -/

lemma fsd_of_not_lt {K i j : ℕ} (h : ¬ i < j) : fsd K i j = 0 := by
  simp [fsd, h]

lemma fsd_eq_of_lt {K i j : ℕ} (hij : i < j) (hj : j < K) :
    fsd K i j = 1 / ((K : ℝ) - (i : ℝ) - 1) := by
  have hne : K - i ≠ 1 := by omega
  simp [fsd, hij, hne]

lemma fsd_last_row (K : ℕ) (hK : 1 ≤ K) (j : ℕ) : fsd K (K - 1) j = 0 := by
  unfold fsd
  have h1 : K - (K - 1) = 1 := by omega
  by_cases h : K - 1 < j <;> simp [h, h1]

lemma denom_pos {K i : ℕ} (hi : i < K - 1) : (0 : ℝ) < (K : ℝ) - (i : ℝ) - 1 := by
  have h2 : (i : ℝ) + 2 ≤ (K : ℝ) := by exact_mod_cast Nat.succ_le_of_lt (by omega)
  linarith

lemma fsd_row_sum (K i : ℕ) (hi : i < K - 1) :
    ∑ j ∈ Finset.range K, fsd K i j = 1 := by
  have hcongr : ∀ j ∈ Finset.range K,
      fsd K i j = if i < j then (1 / ((K : ℝ) - (i : ℝ) - 1)) else 0 := by
    intro j hj
    rw [Finset.mem_range] at hj
    by_cases h : i < j
    · rw [fsd_eq_of_lt h hj, if_pos h]
    · rw [fsd_of_not_lt h, if_neg h]
  rw [Finset.sum_congr rfl hcongr, ← Finset.sum_filter]
  have hset : (Finset.range K).filter (fun j => i < j) = Finset.Ico (i + 1) K := by
    ext j
    simp only [Finset.mem_filter, Finset.mem_range, Finset.mem_Ico]
    omega
  rw [hset, Finset.sum_const, Nat.card_Ico, nsmul_eq_mul]
  have hcast : ((K - (i + 1) : ℕ) : ℝ) = (K : ℝ) - (i : ℝ) - 1 := by
    rw [Nat.cast_sub (by omega)]
    push_cast
    ring
  rw [hcast]
  exact mul_one_div_cancel (denom_pos hi).ne'

lemma fsd_row_sum_ite (K i : ℕ) (hK : 1 ≤ K) (hi : i < K) :
    ∑ j ∈ Finset.range K, fsd K i j = if i = K - 1 then 0 else 1 := by
  by_cases h : i = K - 1
  · subst h
    simp [Finset.sum_congr rfl (fun j _ => fsd_last_row K hK j)]
  · rw [if_neg h]
    exact fsd_row_sum K i (by omega)

/-! ### Helper lemma: the sum of the right-hand side over all classes -/

lemma sum_f_eq (K : ℕ) (hK : 1 ≤ K) (kf : ℕ → ℝ) (t : ℝ) (n : ℕ → ℝ) :
    ∑ k ∈ Finset.range K, f K kf t n k = -(kf (K - 1) * n (K - 1)) := by
  unfold f
  rw [Finset.sum_add_distrib, Finset.sum_comm]
  have hinner : ∀ i ∈ Finset.range K,
      ∑ k ∈ Finset.range K, fsd K i k * kf i * n i =
        (if i = K - 1 then 0 else kf i * n i) := by
    intro i hi
    rw [Finset.mem_range] at hi
    have : ∀ k ∈ Finset.range K,
        fsd K i k * kf i * n i = fsd K i k * (kf i * n i) := by
      intro k _; ring
    rw [Finset.sum_congr rfl this, ← Finset.sum_mul, fsd_row_sum_ite K i hK hi]
    by_cases h : i = K - 1 <;> simp [h]
  rw [Finset.sum_congr rfl hinner]
  have hsplit : ∀ i ∈ Finset.range K,
      (if i = K - 1 then 0 else kf i * n i) =
        kf i * n i - (if i = K - 1 then kf i * n i else 0) := by
    intro i _
    by_cases h : i = K - 1 <;> simp [h]
  rw [Finset.sum_congr rfl hsplit, Finset.sum_sub_distrib,
    Finset.sum_ite_eq' (Finset.range K) (K - 1) (fun i => kf i * n i),
    if_pos (Finset.mem_range.mpr (by omega))]
  have hneg : ∀ k ∈ Finset.range K, -kf k * n k = -(kf k * n k) := by
    intro k _; ring
  rw [Finset.sum_congr rfl hneg, Finset.sum_neg_distrib]
  ring

/-! ### Helper lemmas about the size distribution -/

lemma d_pos (K : ℕ) (emin emax : ℝ) (k : ℕ) : 0 < d K emin emax k :=
  Real.rpow_pos_of_pos (by norm_num) _

lemma d_zero (K : ℕ) (emin emax : ℝ) : d K emin emax 0 = (10 : ℝ) ^ emax := by
  simp [d]

lemma d_last (K : ℕ) (emin emax : ℝ) (hK : 2 ≤ K) :
    d K emin emax (K - 1) = (10 : ℝ) ^ emin := by
  unfold d
  have hcast : ((K - 1 : ℕ) : ℝ) = (K : ℝ) - 1 := by
    rw [Nat.cast_sub (by omega)]; norm_num
  have hne : (K : ℝ) - 1 ≠ 0 := by
    have : (2 : ℝ) ≤ (K : ℝ) := by exact_mod_cast hK
    intro h; linarith
  rw [hcast, mul_comm, mul_div_assoc, div_self hne, mul_one]
  ring_nf

lemma d_succ (K : ℕ) (emin emax : ℝ) (k : ℕ) :
    d K emin emax (k + 1) =
      d K emin emax k * (10 : ℝ) ^ ((emin - emax) / ((K : ℝ) - 1)) := by
  unfold d
  rw [← Real.rpow_add (by norm_num : (0 : ℝ) < 10)]
  congr 1
  push_cast
  ring

lemma exponent_strict_anti (K : ℕ) (emin emax : ℝ) (hK : 2 ≤ K)
    (he : emin < emax) (k : ℕ) :
    emax + ((k : ℝ) + 1) * (emin - emax) / ((K : ℝ) - 1) <
      emax + (k : ℝ) * (emin - emax) / ((K : ℝ) - 1) := by
  have hKpos : (0 : ℝ) < (K : ℝ) - 1 := by
    have : (2 : ℝ) ≤ (K : ℝ) := by exact_mod_cast hK
    linarith
  have hstep : (emin - emax) / ((K : ℝ) - 1) < 0 :=
    div_neg_of_neg_of_pos (by linarith) hKpos
  have : ((k : ℝ) + 1) * ((emin - emax) / ((K : ℝ) - 1)) <
      (k : ℝ) * ((emin - emax) / ((K : ℝ) - 1)) := by
    have hk0 : (k : ℝ) < (k : ℝ) + 1 := by linarith
    exact mul_lt_mul_of_neg_right hk0 hstep
  rw [mul_div_assoc, mul_div_assoc]
  linarith

lemma d_strict_anti (K : ℕ) (emin emax : ℝ) (hK : 2 ≤ K) (he : emin < emax)
    (k : ℕ) : d K emin emax (k + 1) < d K emin emax k := by
  unfold d
  rw [Real.rpow_lt_rpow_left_iff (by norm_num : (1 : ℝ) < 10)]
  have := exponent_strict_anti K emin emax hK he k
  push_cast
  convert this using 2

lemma d_last_lt_d_zero (K : ℕ) (emin emax : ℝ) (hK : 2 ≤ K) (he : emin < emax) :
    d K emin emax (K - 1) < d K emin emax 0 := by
  rw [d_zero, d_last K emin emax hK]
  exact (Real.rpow_lt_rpow_left_iff (by norm_num : (1 : ℝ) < 10)).mpr he

lemma d_median_pos (K : ℕ) (emin emax : ℝ) : 0 < d_median K emin emax := by
  unfold d_median
  by_cases h : K % 2 = 1
  · simp only [h, if_pos]
    exact d_pos K emin emax _
  · simp only [h, if_neg, if_false]
    have h1 := d_pos K emin emax (K / 2 - 1)
    have h2 := d_pos K emin emax (K / 2)
    linarith

/-! ### Claim theorems -/

/-- Claim C2: for every K ≥ 1, the even-split fragment-distribution matrix
has value 1/(K - i - 1) in row i at every column strictly finer than i and
0 in every other entry (diagonal and coarser columns included); every row
i with i < K-1 sums exactly to 1, the finest row is entirely zero, and
whenever the code divides by K - i - 1 that denominator is nonzero. -/
theorem C2_fsd_even_split (K : ℕ) (hK : 1 ≤ K) :
    (∀ i j, i < K → j < K →
      fsd K i j = if i < j then 1 / ((K : ℝ) - (i : ℝ) - 1) else 0)
    ∧ (∀ i, i < K - 1 → ∑ j ∈ Finset.range K, fsd K i j = 1)
    ∧ (∀ j, j < K → fsd K (K - 1) j = 0)
    ∧ (∀ i, i < K → K - i ≠ 1 → ((K : ℝ) - (i : ℝ) - 1) ≠ 0) := by
  refine ⟨?_, ?_, ?_, ?_⟩
  · intro i j hi hj
    by_cases h : i < j
    · rw [fsd_eq_of_lt h hj, if_pos h]
    · rw [fsd_of_not_lt h, if_neg h]
  · intro i hi
    exact fsd_row_sum K i hi
  · intro j hj
    exact fsd_last_row K hK j
  · intro i hi hne
    exact (denom_pos (by omega)).ne'

/-- Witness for C2 at K = 3: row 0 of the matrix sums to 1. -/
theorem C2_fsd_even_split_witness :
    1 ≤ 3 ∧ ∑ j ∈ Finset.range 3, fsd 3 0 j = 1 :=
  ⟨by norm_num, (C2_fsd_even_split 3 (by norm_num)).2.1 0 (by norm_num)⟩

/-- Claim C10: for every time t and state vector n, the sum of the
right-hand side over all classes equals -k_frag[K-1] * n[K-1]: every
fragmentation outflow from a non-finest class is balanced by inflows to
finer classes, and the total is exactly conserved iff
k_frag[K-1] * n[K-1] = 0. -/
theorem C10_total_derivative (K : ℕ) (hK : 1 ≤ K) (kf : ℕ → ℝ) (t : ℝ)
    (n : ℕ → ℝ) :
    ∑ k ∈ Finset.range K, f K kf t n k = -(kf (K - 1) * n (K - 1))
    ∧ (∑ k ∈ Finset.range K, f K kf t n k = 0 ↔ kf (K - 1) * n (K - 1) = 0) := by
  have h := sum_f_eq K hK kf t n
  refine ⟨h, ?_⟩
  rw [h, neg_eq_zero]

/-- Witness for C10 at K = 1 with unit rate and state. -/
theorem C10_total_derivative_witness :
    1 ≤ 1 ∧ ∑ k ∈ Finset.range 1, f 1 (fun _ => (1 : ℝ)) 0 (fun _ => 1) k =
      -(1 * 1) :=
  ⟨le_rfl, (C10_total_derivative 1 le_rfl (fun _ => 1) 0 (fun _ => 1)).1⟩

/-- Claim C6: when fragmentation from the smallest size class is not
allowed (terminal sink), its k_frag is set to exactly zero regardless of
the power-law value, and all other classes' k_frag values are unchanged. -/
theorem C6_terminal_sink (K : ℕ) (emin emax kbar theta1 : ℝ) (hK : 1 ≤ K) :
    k_frag_loss K emin emax kbar theta1 false (K - 1) = 0
    ∧ ∀ k, k ≠ K - 1 →
        k_frag_loss K emin emax kbar theta1 false k =
          k_frag K emin emax kbar theta1 k := by
  constructor
  · simp [k_frag_loss]
  · intro k hk
    simp [k_frag_loss, hk]

/-- Witness for C6 at K = 2: the finest class's rate becomes 0 and the
coarsest class's rate is untouched. -/
theorem C6_terminal_sink_witness :
    1 ≤ 2 ∧ k_frag_loss 2 0 1 1 0 false 1 = 0
    ∧ k_frag_loss 2 0 1 1 0 false 0 = k_frag 2 0 1 1 0 0 :=
  ⟨by norm_num, (C6_terminal_sink 2 0 1 1 0 (by norm_num)).1,
    (C6_terminal_sink 2 0 1 1 0 (by norm_num)).2 0 (by norm_num)⟩

/-- Claim C5: each class's fragmentation rate is
k_prop * d[k]^(2*theta1) with k_prop = k_frag_bar / d_median^(2*theta1);
a class whose diameter equals d_median gets rate exactly k_frag_bar, and
with theta1 = 0 every class gets rate k_frag_bar. -/
theorem C5_rate_power_law (K : ℕ) (emin emax kbar theta1 : ℝ) (k : ℕ)
    (hk : k < K) :
    k_frag K emin emax kbar theta1 k =
      k_prop K emin emax kbar theta1 * d K emin emax k ^ (2 * theta1)
    ∧ k_prop K emin emax kbar theta1 =
      kbar / d_median K emin emax ^ (2 * theta1)
    ∧ (d K emin emax k = d_median K emin emax →
        k_frag K emin emax kbar theta1 k = kbar)
    ∧ (theta1 = 0 → k_frag K emin emax kbar theta1 k = kbar) := by
  refine ⟨rfl, rfl, ?_, ?_⟩
  · intro hdm
    unfold k_frag k_prop
    rw [hdm]
    exact div_mul_cancel₀ kbar
      (Real.rpow_pos_of_pos (d_median_pos K emin emax) _).ne'
  · intro h0
    unfold k_frag k_prop
    rw [h0]
    simp [Real.rpow_zero]

/-- Witness for C5 at K = 1, theta1 = 0, k_frag_bar = 5: the class's rate
is exactly 5. -/
theorem C5_rate_power_law_witness : 0 < 1 ∧ k_frag 1 0 0 5 0 0 = 5 :=
  ⟨by norm_num, (C5_rate_power_law 1 0 0 5 0 0 (by norm_num)).2.2.2 rfl⟩

/-- Claim C1 counterexample: at K = 1 with k_frag_bar = 0, unit state and
dissolution rate 1 per class, the notebook's right-hand side returns 0
while the spec's formula (with its dissolution sink) returns -1: the
dissolution sink term is not part of the returned derivative. -/
theorem C1_counterexample :
    f 1 (k_frag_loss 1 0 0 0 0 true) 0 (fun _ => 1) 0 = 0
    ∧ f_spec 1 (k_frag_loss 1 0 0 0 0 true) (fun _ => 1) 0 (fun _ => 1) 0 = -1
    ∧ f 1 (k_frag_loss 1 0 0 0 0 true) 0 (fun _ => 1) 0 ≠
        f_spec 1 (k_frag_loss 1 0 0 0 0 true) (fun _ => 1) 0 (fun _ => 1) 0 := by
  have ha : f 1 (k_frag_loss 1 0 0 0 0 true) 0 (fun _ => 1) 0 = 0 := by
    simp [f, fsd, k_frag_loss, k_frag, k_prop]
  have hb : f_spec 1 (k_frag_loss 1 0 0 0 0 true) (fun _ => 1) 0 (fun _ => 1) 0 = -1 := by
    simp [f_spec, fsd, k_frag_loss, k_frag, k_prop]
  refine ⟨ha, hb, ?_⟩
  rw [ha, hb]
  norm_num

/-- Claim C1 (amended): the notebook's right-hand side implements
dc_k/dt = -k_frag[k]*c[k] + Σ_i f[i][k]*k_frag[i]*c[i] with no
dissolution term: it coincides with the spec's formula exactly when the
dissolution rate is taken to be zero in every class. -/
theorem C1_amended (K : ℕ) (kf : ℕ → ℝ) (t : ℝ) (n : ℕ → ℝ) (k : ℕ) :
    f K kf t n k = f_spec K kf (fun j => 0) t n k := by
  simp [f, f_spec]

/-- Claim C3 counterexample: K = 2, theta1 = 0, k_frag_bar = 1,
fragmentation from the smallest class allowed, unit state (dissolution is
absent from this engine, i.e. k_diss = 0 everywhere): the total
derivative is -1 ≠ 0, so the total concentration is not constant. -/
theorem C3_counterexample :
    ∑ k ∈ Finset.range 2, f 2 (k_frag_loss 2 0 0 1 0 true) 0 (fun _ => 1) k = -1
    ∧ (-1 : ℝ) ≠ 0 := by
  constructor
  · have hkf : ∀ k, k_frag_loss 2 0 0 1 0 true k = 1 := by
      intro k
      simp [k_frag_loss, k_frag, k_prop]
    rw [sum_f_eq 2 (by norm_num) _ 0 _, hkf]
    norm_num
  · norm_num

/-- Claim C3 (amended): with no dissolution, the total concentration is
conserved when the smallest class does not fragment (flag off): the sum
of the right-hand side is then 0; in general the total changes at rate
-k_frag[K-1]*c[K-1], so conservation additionally requires
k_frag[K-1]*c[K-1] = 0 rather than holding for every flag and k_frag. -/
theorem C3_amended (K : ℕ) (emin emax kbar theta1 t : ℝ) (n : ℕ → ℝ)
    (hK : 1 ≤ K) :
    ∑ k ∈ Finset.range K, f K (k_frag_loss K emin emax kbar theta1 false) t n k = 0
    ∧ ∀ loss : Bool,
        ∑ k ∈ Finset.range K, f K (k_frag_loss K emin emax kbar theta1 loss) t n k =
          -(k_frag_loss K emin emax kbar theta1 loss (K - 1) * n (K - 1)) := by
  constructor
  · rw [sum_f_eq K hK _ t n]
    have h0 : k_frag_loss K emin emax kbar theta1 false (K - 1) = 0 := by
      simp [k_frag_loss]
    rw [h0]
    ring
  · intro loss
    exact sum_f_eq K hK _ t n

/-- Witness for the amended C3 at K = 1: with the flag off the total
derivative is 0. -/
theorem C3_amended_witness :
    1 ≤ 1 ∧ ∑ k ∈ Finset.range 1,
      f 1 (k_frag_loss 1 0 0 1 0 false) 0 (fun _ => 1) k = 0 :=
  ⟨le_rfl, (C3_amended 1 0 0 1 0 0 (fun _ => 1) le_rfl).1⟩

/-- Claim C4 counterexample: K = 1, fragmentation from the smallest class
allowed, theta1 = 0, k_frag_bar = 1, unit state: the derivative is -1 ≠ 0,
so the single class's concentration is not constant even though there is
no finer class — the fragmented mass leaves the system. -/
theorem C4_counterexample :
    f 1 (k_frag_loss 1 0 0 1 0 true) 0 (fun _ => 1) 0 = -1
    ∧ (-1 : ℝ) ≠ 0 := by
  constructor
  · simp [f, fsd, k_frag_loss, k_frag, k_prop]
  · norm_num

/-- Claim C4 (amended): for K = 1 the fragment-distribution matrix is the
1×1 zero matrix and the derivative of the single class is
-k_frag[0]*c[0]; with no dissolution the concentration is therefore
constant exactly when k_frag[0]*c[0] = 0 — in particular when
fragmentation from the smallest class is not allowed — but not for an
arbitrary positive k_frag with fragmentation allowed. -/
theorem C4_amended (emin emax kbar theta1 t : ℝ) (n : ℕ → ℝ) :
    fsd 1 0 0 = 0
    ∧ f 1 (k_frag_loss 1 emin emax kbar theta1 false) t n 0 = 0
    ∧ ∀ kf : ℕ → ℝ, f 1 kf t n 0 = -(kf 0 * n 0) := by
  have hfsd : fsd 1 0 0 = 0 := by simp [fsd]
  have hgen : ∀ kf : ℕ → ℝ, f 1 kf t n 0 = -(kf 0 * n 0) := by
    intro kf
    unfold f
    rw [Finset.sum_range_one, hfsd]
    ring
  refine ⟨hfsd, ?_, hgen⟩
  rw [hgen (k_frag_loss 1 emin emax kbar theta1 false)]
  simp [k_frag_loss]

/-- Claim C7: model construction fails with ConfigurationError when K < 1
or when the minimum diameter exponent is ≥ the maximum one; the failure
is raised before any integration is attempted (a run returns the
configuration error no matter what the integrator would do) and the
configuration is never silently corrected into a successful result. -/
theorem C7_eager_config_error (K emin emax : ℤ) (h : K < 1 ∨ emin ≥ emax) :
    fragmentmnp_construct K emin emax = Except.error FMNPError.ConfigurationError
    ∧ (∀ integrate, fragmentmnp_run K emin emax integrate =
        Except.error FMNPError.ConfigurationError)
    ∧ ∀ m, fragmentmnp_construct K emin emax ≠ Except.ok m := by
  have hcond : K < 1 ∨ emax ≤ emin := by
    rcases h with h | h
    · exact Or.inl h
    · exact Or.inr h
  have hc : fragmentmnp_construct K emin emax =
      Except.error FMNPError.ConfigurationError := by
    unfold fragmentmnp_construct
    rw [if_pos hcond]
  refine ⟨hc, ?_, ?_⟩
  · intro integrate
    unfold fragmentmnp_run
    rw [hc]
  · intro m
    rw [hc]
    intro hcontra
    cases hcontra

/-- Witness for C7 at K = 0 (with a valid diameter range): construction
fails with ConfigurationError. -/
theorem C7_eager_config_error_witness :
    ((0 : ℤ) < 1 ∨ (0 : ℤ) ≥ 1)
    ∧ fragmentmnp_construct 0 0 1 = Except.error FMNPError.ConfigurationError :=
  ⟨Or.inl (by decide), (C7_eager_config_error 0 0 1 (Or.inl (by decide))).1⟩

/-- Claim C8 counterexample: at K = 1 with exponent range 0 to 1 the
discretizer returns the single diameter 10^1 = 10; the endpoint
10^0 = 1 of the requested range is not in the returned sequence, so the
output does not span the range inclusive of both endpoints. -/
theorem C8_counterexample :
    dList 1 0 1 = [(10 : ℝ) ^ (1 : ℝ)]
    ∧ (10 : ℝ) ^ (1 : ℝ) = 10
    ∧ (10 : ℝ) ^ (0 : ℝ) = 1
    ∧ (10 : ℝ) ^ (0 : ℝ) ∉ dList 1 0 1 := by
  have h1 : (10 : ℝ) ^ (1 : ℝ) = 10 := Real.rpow_one 10
  have h0 : (10 : ℝ) ^ (0 : ℝ) = 1 := Real.rpow_zero 10
  have hd : dList 1 0 1 = [(10 : ℝ) ^ (1 : ℝ)] := by
    simp [dList, List.ofFn_succ, List.ofFn_zero, d]
  refine ⟨hd, h1, h0, ?_⟩
  rw [hd, h1, h0]
  norm_num

/-- Claim C8 (amended): for K ≥ 2 and min exponent < max exponent the
discretizer returns exactly K strictly decreasing diameters forming a
geometric progression whose first element is 10^emax and whose last is
10^emin (both endpoints attained); for K = 1 only the max-exponent
endpoint is attained (see the counterexample). -/
theorem C8_amended (K : ℕ) (emin emax : ℝ) (hK : 2 ≤ K) (he : emin < emax) :
    (dList K emin emax).length = K
    ∧ (∀ k, d K emin emax (k + 1) < d K emin emax k)
    ∧ d K emin emax 0 = (10 : ℝ) ^ emax
    ∧ d K emin emax (K - 1) = (10 : ℝ) ^ emin
    ∧ (∀ k, d K emin emax (k + 1) =
        d K emin emax k * (10 : ℝ) ^ ((emin - emax) / ((K : ℝ) - 1))) :=
  ⟨by simp [dList], fun k => d_strict_anti K emin emax hK he k,
    d_zero K emin emax, d_last K emin emax hK,
    fun k => d_succ K emin emax k⟩

/-- Witness for the amended C8 at K = 2 over exponents 0..1: the output
has length 2 and is strictly decreasing. -/
theorem C8_amended_witness :
    2 ≤ 2 ∧ (0 : ℝ) < 1 ∧ (dList 2 0 1).length = 2
    ∧ d 2 0 1 1 < d 2 0 1 0 :=
  ⟨le_rfl, by norm_num, (C8_amended 2 0 1 le_rfl (by norm_num)).1,
    (C8_amended 2 0 1 le_rfl (by norm_num)).2.1 0⟩

/-- Claim C9: with k_frag_bar and the diameter sequence fixed (K ≥ 2,
distinct positive diameters, positive average rate), the ratio of the
coarsest class's k_frag to the finest class's k_frag is strictly
increasing in theta1. -/
theorem C9_spread_monotone (K : ℕ) (emin emax kbar theta1 theta1' : ℝ)
    (hK : 2 ≤ K) (he : emin < emax) (hkbar : 0 < kbar) (h0 : 0 ≤ theta1)
    (h : theta1 < theta1') :
    k_frag K emin emax kbar theta1 0 / k_frag K emin emax kbar theta1 (K - 1) <
      k_frag K emin emax kbar theta1' 0 / k_frag K emin emax kbar theta1' (K - 1) := by
  have hd0 : 0 < d K emin emax 0 := d_pos K emin emax 0
  have hdl : 0 < d K emin emax (K - 1) := d_pos K emin emax (K - 1)
  have hdm : 0 < d_median K emin emax := d_median_pos K emin emax
  have hlt : d K emin emax (K - 1) < d K emin emax 0 :=
    d_last_lt_d_zero K emin emax hK he
  have hr : 1 < d K emin emax 0 / d K emin emax (K - 1) :=
    (one_lt_div hdl).mpr hlt
  have hratio : ∀ θ : ℝ,
      k_frag K emin emax kbar θ 0 / k_frag K emin emax kbar θ (K - 1) =
        (d K emin emax 0 / d K emin emax (K - 1)) ^ (2 * θ) := by
    intro θ
    have hc : k_prop K emin emax kbar θ ≠ 0 := by
      unfold k_prop
      exact (div_pos hkbar (Real.rpow_pos_of_pos hdm _)).ne'
    unfold k_frag
    rw [mul_div_mul_left _ _ hc, ← Real.div_rpow hd0.le hdl.le]
  rw [hratio theta1, hratio theta1']
  exact (Real.rpow_lt_rpow_left_iff hr).mpr (by linarith)

/-- Witness for C9 at K = 2, exponents 0..1, k_frag_bar = 1, comparing
theta1 = 0 with theta1 = 1. -/
theorem C9_spread_monotone_witness :
    2 ≤ 2 ∧ (0 : ℝ) < 1 ∧ (0 : ℝ) < 1 ∧ (0 : ℝ) ≤ 0 ∧ (0 : ℝ) < 1
    ∧ k_frag 2 0 1 1 0 0 / k_frag 2 0 1 1 0 1 <
        k_frag 2 0 1 1 1 0 / k_frag 2 0 1 1 1 1 :=
  ⟨le_rfl, by norm_num, by norm_num, le_rfl, by norm_num,
    C9_spread_monotone 2 0 1 1 0 1 le_rfl (by norm_num) (by norm_num) le_rfl
      (by norm_num)⟩

end

end FMNP
